import Mathlib

/-!
# Verification of amWiki build/manageFolder.js

A shallow embedding of the folder-management module of the amWiki project
(file src/build/manageFolder.js) together with theorems settling the frozen
claims about its specification.

Modelling conventions:
* JavaScript strings are Lean `String`s; all string manipulation is carried
  out on the underlying `List Char` so that every definition is executable
  and kernel-reducible.
* The synchronous Node filesystem API (readdirSync, statSync, existsSync,
  mkdirSync, unlinkSync, rmdirSync) is modelled over a finite directory tree
  `FsNode` with POSIX path resolution (splitting on the forward slash and
  discarding empty components).  `denyStat` and `denyWrite` list paths at
  which read-type respectively write-type operations raise (e.g. permission
  denied).  Fallible operations return `Except Unit`; an `Except.error`
  value models a raised JavaScript exception.
* Functions whose recursion in the source is bounded only by the real
  directory depth take an explicit fuel parameter; exhausted fuel models the
  cut-off and every concrete statement supplies sufficient fuel.
* JavaScript values that may be `false` or a string are modelled as
  `Option String` (`none` = `false`).
-/

/-- Does the character list `s` begin with the character list `pat`? -/
def startsList : List Char → List Char → Bool
  | _, [] => true
  | [], _ :: _ => false
  | c :: s, d :: pat => c == d && startsList s pat

/-- Does the character list `s` contain `pat` as a contiguous sublist? -/
def containsList : List Char → List Char → Bool
  | [], pat => pat.isEmpty
  | c :: s, pat => startsList (c :: s) pat || containsList s pat

/-- JavaScript `s.startsWith(pat)` / regex `^pat`. -/
def strStartsWith (s pat : String) : Bool := startsList s.data pat.data

/-- JavaScript regex `pat$` (anchored suffix test). -/
def strEndsWith (s pat : String) : Bool := startsList s.data.reverse pat.data.reverse

/-- JavaScript `s.indexOf(pat) >= 0` (substring containment). -/
def strContains (s pat : String) : Bool := containsList s.data pat.data

/-- Regex `/^\./`: the name starts with a dot (hidden/system entry). -/
def hiddenName (s : String) : Bool :=
  match s.data with
  | '.' :: _ => true
  | _ => false

/-- `path.replace(/\\/g, '/')`: normalize backslashes to forward slashes. -/
def backslashToSlash (s : String) : String :=
  ⟨s.data.map fun c => if c = '\\' then '/' else c⟩

/-- Regex `/^[a-zA-Z]:/`: a Windows drive-letter path start. -/
def isDriveStart (s : String) : Bool :=
  match s.data with
  | a :: b :: _ => (('a' ≤ a && a ≤ 'z') || ('A' ≤ a && a ≤ 'Z')) && b == ':'
  | _ => false

/-- `path.replace('/', '')`: remove the first forward slash, if any. -/
def removeFirstSlash : List Char → List Char
  | [] => []
  | c :: rest => if c = '/' then rest else c :: removeFirstSlash rest

/-- `path.replace(/\/$/, '')`: strip one trailing forward slash. -/
def stripTrailingSlash (s : String) : String :=
  if s.data.getLast? = some '/' then ⟨s.data.dropLast⟩ else s

/-- `path.replace(/\/?$/, '/')`: ensure exactly one trailing slash is present. -/
def ensureTrailingSlash (s : String) : String :=
  if s.data.getLast? = some '/' then s else s ++ "/"

/-- `path.replace(/\/[^\/]+$/, '/')`: drop the final nonempty path segment,
keeping the separator before it; no change if there is no such match. -/
def dropLastSeg (s : String) : String :=
  if (s.data.reverse.takeWhile fun c => c ≠ '/') = [] then s
  else
    match s.data.reverse.dropWhile fun c => c ≠ '/' with
    | [] => s
    | r => ⟨r.reverse⟩

/-- Split a character list at every forward slash (the groups between
slashes, in order; empty groups are kept). -/
def splitSlash : List Char → List (List Char)
  | [] => [[]]
  | c :: rest =>
    if c = '/' then [] :: splitSlash rest
    else
      match splitSlash rest with
      | [] => [[c]]
      | g :: gs => (c :: g) :: gs

/-- POSIX path components of a path string: the nonempty groups between
forward slashes. -/
def pathComps (p : String) : List String :=
  ((splitSlash p.data).filter fun g => g ≠ []).map fun g => ⟨g⟩

/-- manageFolder.getParentFolder, translated from the source:
normalizes backslashes; returns `false` (here `none`) for a short
drive-letter path or when at most one slash is present; otherwise strips one
trailing slash and then the final segment. -/
def getParentFolder (path : String) : Option String :=
  let p := backslashToSlash path
  if isDriveStart p && decide (p.length < 3) then none
  else if !((removeFirstSlash p.data).contains '/') then none
  else some (dropLastSeg (stripTrailingSlash p))

/-- One record of the flat entry list produced by the walker:
`{depth, type, name, path}` where `path` is the containing directory. -/
structure Entry where
  depth : Nat
  type : String
  name : String
  path : String
deriving DecidableEq, Repr

/-- A value of the tree object: `false` for a file, a nested mapping for a
subfolder. -/
inductive TreeVal where
  | file
  | sub (children : List (String × TreeVal))
deriving Repr

/-- The tree object: a mapping from entry name to `TreeVal`, in insertion
order (JavaScript object key order). -/
abbrev TreeObj := List (String × TreeVal)

/-- JavaScript `tree[k] = v`: replace the value at an existing key in place,
or append a new key at the end. -/
def treeSet : TreeObj → String → TreeVal → TreeObj
  | [], k, v => [(k, v)]
  | (k', v') :: rest, k, v =>
    if k' = k then (k, v) :: rest else (k', v') :: treeSet rest k v

/-- Look up a key in the tree object. -/
def treeGet : TreeObj → String → Option TreeVal
  | [], _ => none
  | (k', v') :: rest, k => if k' = k then some v' else treeGet rest k

/-- A node of the modelled filesystem: a file, or a directory whose entry
list gives names and children in enumeration order. -/
inductive FsNode where
  | file
  | dir (entries : List (String × FsNode))
deriving Repr

/-- Look up a name among directory entries. -/
def entryLookup : List (String × FsNode) → String → Option FsNode
  | [], _ => none
  | (n, v) :: es, name => if n = name then some v else entryLookup es name

/-- Replace the child at an existing name, or append a new one. -/
def entrySet : List (String × FsNode) → String → FsNode → List (String × FsNode)
  | [], name, v => [(name, v)]
  | (n, w) :: es, name, v =>
    if n = name then (name, v) :: es else (n, w) :: entrySet es name v

/-- Remove the child with the given name (first occurrence). -/
def entryRemove : List (String × FsNode) → String → List (String × FsNode)
  | [], _ => []
  | (n, w) :: es, name => if n = name then es else (n, w) :: entryRemove es name

/-- Resolve a component path against a filesystem node. -/
def FsNode.resolve : List String → FsNode → Option FsNode
  | [], node => some node
  | _ :: _, .file => none
  | name :: rest, .dir es =>
    match entryLookup es name with
    | some child => FsNode.resolve rest child
    | none => none

/-- Place `v` at the component path (which must be nonempty and whose parent
chain must exist; the callers guard this). -/
def FsNode.setAt : List String → FsNode → FsNode → FsNode
  | [], _, node => node
  | name :: rest, v, node =>
    match node with
    | .file => .file
    | .dir es =>
      match rest with
      | [] => .dir (entrySet es name v)
      | _ :: _ =>
        match entryLookup es name with
        | none => .dir es
        | some child => .dir (entrySet es name (FsNode.setAt rest v child))

/-- Delete the entry at the component path. -/
def FsNode.delAt : List String → FsNode → FsNode
  | [], node => node
  | name :: rest, node =>
    match node with
    | .file => .file
    | .dir es =>
      match rest with
      | [] => .dir (entryRemove es name)
      | _ :: _ =>
        match entryLookup es name with
        | none => .dir es
        | some child => .dir (entrySet es name (FsNode.delAt rest child))

/-- The modelled filesystem state: a root directory tree, plus the component
paths at which read-type operations (`statSync`, `readdirSync`) respectively
write-type operations (`mkdirSync`, `unlinkSync`, `rmdirSync`) raise, which
models permission errors and similar externally caused failures. -/
structure Fs where
  root : FsNode
  denyStat : List (List String)
  denyWrite : List (List String)

/-- `fs.readdirSync(p)`: entry names of the directory at `p`, in enumeration
order; raises when denied, missing, or not a directory. -/
def readdirSync (fs : Fs) (p : String) : Except Unit (List String) :=
  let c := pathComps p
  if c ∈ fs.denyStat then .error ()
  else
    match FsNode.resolve c fs.root with
    | some (.dir es) => .ok (es.map Prod.fst)
    | _ => .error ()

/-- `fs.statSync(p).isDirectory()`: raises when denied or missing. -/
def statIsDir (fs : Fs) (p : String) : Except Unit Bool :=
  let c := pathComps p
  if c ∈ fs.denyStat then .error ()
  else
    match FsNode.resolve c fs.root with
    | some (.dir _) => .ok true
    | some .file => .ok false
    | none => .error ()

/-- `fs.existsSync(p)`: never raises; `false` on any failure, including a
non-string argument (`none`). -/
def existsSync (fs : Fs) : Option String → Bool
  | none => false
  | some p =>
    let c := pathComps p
    if c ∈ fs.denyStat then false else (FsNode.resolve c fs.root).isSome

/-- `fs.mkdirSync(p, 0o777)`: raises when denied, already existing, or the
parent is absent; the permission mode is ignored by the model. -/
def mkdirSync (fs : Fs) (p : String) : Except Unit Fs :=
  let c := pathComps p
  if c ∈ fs.denyWrite then .error ()
  else
    match FsNode.resolve c fs.root with
    | some _ => .error ()
    | none =>
      match FsNode.resolve c.dropLast fs.root with
      | some (.dir _) => .ok { fs with root := FsNode.setAt c (.dir []) fs.root }
      | _ => .error ()

/-- `fs.unlinkSync(p)`: raises when denied, missing, or a directory. -/
def unlinkSync (fs : Fs) (p : String) : Except Unit Fs :=
  let c := pathComps p
  if c ∈ fs.denyWrite then .error ()
  else
    match FsNode.resolve c fs.root with
    | some .file => .ok { fs with root := FsNode.delAt c fs.root }
    | _ => .error ()

/-- `fs.rmdirSync(p)`: raises when denied, missing, nonempty, or a file. -/
def rmdirSync (fs : Fs) (p : String) : Except Unit Fs :=
  let c := pathComps p
  if c ∈ fs.denyWrite then .error ()
  else
    match FsNode.resolve c fs.root with
    | some (.dir []) => .ok { fs with root := FsNode.delAt c fs.root }
    | _ => .error ()

/-- The child path built by the walker (manageFolder.js line 25):
`dirPath + (depth > 0 ? '/' : '') + fileName`. -/
def filePathOf (dirPath : String) (depth : Nat) (fileName : String) : String :=
  dirPath ++ (if 0 < depth then "/" else "") ++ fileName

/-- The `for (let fileName of fs.readdirSync(dirPath))` loop body of
`_listSubFolder`, one directory level.  `sub` performs the recursive call on
a subdirectory.  The first component of the result records whether an
exception was raised inside the loop (a failing `statSync`); it is caught by
the `try`/`catch` wrapping the loop in `_listSubFolder`.  The accumulators
`tree`, `list`, `files` model the in-place mutated objects. -/
def walkLoop (fs : Fs) (sub : String → TreeObj × List Entry × List String)
    (dirPath : String) (depth : Nat) :
    List String → TreeObj → List Entry → List String →
      Bool × TreeObj × List Entry × List String
  | [], t, l, f => (false, t, l, f)
  | name :: rest, t, l, f =>
    if hiddenName name then walkLoop fs sub dirPath depth rest t l f
    else
      match statIsDir fs (filePathOf dirPath depth name) with
      | .error _ => (true, t, l, f)
      | .ok true =>
        let s := sub (filePathOf dirPath depth name)
        walkLoop fs sub dirPath depth rest
          (treeSet t name (.sub s.1))
          (l ++ ⟨depth, "folder", name, dirPath⟩ :: s.2.1)
          (f ++ s.2.2)
      | .ok false =>
        if 0 < depth then
          walkLoop fs sub dirPath depth rest
            (treeSet t name .file)
            (l ++ [⟨depth, "file", name, dirPath⟩])
            (f ++ [filePathOf dirPath depth name])
        else walkLoop fs sub dirPath depth rest t l f

/-- manageFolder._listSubFolder, translated from the source: enumerate a
directory, skipping dot-entries, recursing into subdirectories at depth+1,
recording files only at depth > 0; the whole loop (including `statSync`) is
wrapped in `try`/`catch`, so on any raised error the accumulators built so
far are returned and nothing propagates.  The fuel argument bounds the
recursion depth of the model. -/
def _listSubFolder (fs : Fs) :
    Nat → String → Nat → TreeObj → List Entry → List String →
      TreeObj × List Entry × List String
  | 0, _, _, t, l, f => (t, l, f)
  | fuel + 1, dirPath, depth, t, l, f =>
    match readdirSync fs dirPath with
    | .error _ => (t, l, f)
    | .ok names =>
      let r := walkLoop fs (fun q => _listSubFolder fs fuel q (depth + 1) [] [] [])
        dirPath depth names t l f
      (r.2.1, r.2.2.1, r.2.2.2)

/-- The body of `_listSubFolder` before the `catch`: identical to
`_listSubFolder` but keeping the flag that tells whether an exception was
raised (by `readdirSync` or by a `statSync` inside the loop). -/
def listSubFolderTry (fs : Fs) (fuel : Nat) (dirPath : String) (depth : Nat)
    (t : TreeObj) (l : List Entry) (f : List String) :
    Bool × TreeObj × List Entry × List String :=
  match fuel with
  | 0 => (false, t, l, f)
  | fuel + 1 =>
    match readdirSync fs dirPath with
    | .error _ => (true, t, l, f)
    | .ok names =>
      walkLoop fs (fun q => _listSubFolder fs fuel q (depth + 1) [] [] [])
        dirPath depth names t l f

/-- Regex `/^home[-_].*?\.md$/` of manageFolder.js line 82: the name starts
with `home-` or `home_` and ends with `.md`, with no line terminator in
between (the JavaScript dot does not match line terminators). -/
def homeNameTest (s : String) : Bool :=
  (strStartsWith s "home-" || strStartsWith s "home_") && strEndsWith s ".md" &&
    (((s.data.drop 5).take (s.data.length - 8)).all fun c =>
      !(c == '\n' || c == '\r' || c == '\u2028' || c == '\u2029'))

/-- The pre-seeding loop of readLibraryTree: record the first top-level name
matching the home pattern or equal to "首页.md" as a file, then stop. -/
def seedHome : List String → TreeObj
  | [] => []
  | n :: rest =>
    if homeNameTest n || n = "首页.md" then [(n, TreeVal.file)] else seedHome rest

/-- Regex `/library[\\\/]$/` of manageFolder.js line 76. -/
def libraryEndTest (s : String) : Bool :=
  strEndsWith s "library/" || strEndsWith s "library\\"

/-- The two result shapes of readLibraryTree: the empty array returned on a
rejected path, or the 3-tuple returned on success. -/
inductive LibResult where
  | emptyArr
  | triple (tree : TreeObj) (list : List Entry) (files : List String)

/-- manageFolder.readLibraryTree, translated from the source.  The top-level
`readdirSync` used for seeding is not inside any `try`, so its failure
raises (models as `.error`). -/
def readLibraryTree (fs : Fs) (fuel : Nat) (path : String) :
    Except Unit LibResult :=
  if !libraryEndTest path then .ok .emptyArr
  else
    match readdirSync fs path with
    | .error e => .error e
    | .ok names =>
      let r := _listSubFolder fs fuel path 0 (seedHome names) [] []
      .ok (.triple r.1 r.2.1 r.2.2)

/-- Regex replace `/[\\\/]?&/` → `'/'` of manageFolder.js line 98: rewrite
the leftmost occurrence of an optional separator followed by an ampersand. -/
def replaceAmp : List Char → List Char
  | [] => []
  | [c] => if c = '&' then ['/'] else [c]
  | c :: d :: rest =>
    if (c == '/' || c == '\\') && d == '&' then '/' :: rest
    else if c = '&' then '/' :: d :: rest
    else c :: replaceAmp (d :: rest)

/-- The `path2` computed by cleanFolder for each item. -/
def cleanPathJoin (path item : String) : String :=
  (⟨replaceAmp path.data⟩ : String) ++ item

/-- The loop body of cleanFolder; every filesystem operation here is
unguarded, so any raised error propagates (`Except.error`).  `subClean` is
the recursive call. -/
def cleanLoop (subClean : Fs → String → Except Unit Fs) (path : String) :
    List String → Fs → Except Unit Fs
  | [], fs => .ok fs
  | item :: rest, fs =>
    let path2 := cleanPathJoin path item
    match statIsDir fs path2 with
    | .error e => .error e
    | .ok true =>
      if hiddenName item then cleanLoop subClean path rest fs
      else
        match subClean fs path2 with
        | .error e => .error e
        | .ok fs1 =>
          match rmdirSync fs1 path2 with
          | .error e => .error e
          | .ok fs2 => cleanLoop subClean path rest fs2
    | .ok false =>
      match unlinkSync fs path2 with
      | .error e => .error e
      | .ok fs1 => cleanLoop subClean path rest fs1

/-- manageFolder.cleanFolder, translated from the source: recursively empty
a folder, skipping dot-named subfolders (but unlinking dot-named files);
nothing is caught, so every failure propagates.  Fuel exhaustion models
stack exhaustion (an error). -/
def cleanFolder : Nat → Fs → String → Except Unit Fs
  | 0, _, _ => .error ()
  | fuel + 1, fs, path =>
    match readdirSync fs path with
    | .error e => .error e
    | .ok names => cleanLoop (fun g q => cleanFolder fuel g q) path names fs

/-- manageFolder.createFolder, translated from the source.  The argument is
`none` when the JavaScript call receives `false` (from getParentFolder), in
which case `getParentFolder(false)` raises a TypeError at once
(`false.replace` is not a function).  Fuel exhaustion models stack
exhaustion (an error). -/
def createFolder (fs : Fs) : Nat → Option String → Except Unit Fs
  | _, none => .error ()
  | 0, some _ => .error ()
  | fuel + 1, some path =>
    let parentPath := getParentFolder path
    if existsSync fs parentPath then
      if existsSync fs (some path) then .ok fs else mkdirSync fs path
    else
      match createFolder fs fuel parentPath with
      | .error e => .error e
      | .ok fs1 => createFolder fs1 fuel (some path)

/-- Regex `/library\/?$/` of manageFolder.js line 165. -/
def libraryTailTest (s : String) : Bool :=
  strEndsWith s "library" || strEndsWith s "library/"

/-- manageFolder.getLibraryFolder, translated from the source: walk upward
via getParentFolder until a path ending in `library` is found or a `library`
child exists; `none` models the JavaScript `false` (also returned for a
falsy path).  Fuel bounds the upward recursion, which the source leaves
unbounded. -/
def getLibraryFolder (fs : Fs) : Nat → Option String → Option String
  | _, none => none
  | 0, some _ => none
  | fuel + 1, some path =>
    if path = "" then none
    else if !strContains path "library" then
      if existsSync fs (some (path ++ "/library/")) then
        some (stripTrailingSlash path ++ "/library/")
      else getLibraryFolder fs fuel (getParentFolder path)
    else
      if libraryTailTest path then some (ensureTrailingSlash path)
      else getLibraryFolder fs fuel (getParentFolder path)

/-- `split(/[-_]/)[0]`: the prefix before the first `-` or `_`. -/
def takeToDelim (l : List Char) : List Char :=
  l.takeWhile fun c => !(c == '-' || c == '_')

/-- manageFolder.getLevel1Id called without the optional `libPath` argument,
translated from the source.  Because `typeof libPath === 'undefined'` holds,
the guarded block runs and its `let libPath` shadows the (undefined)
parameter; after a successful lookup the code reaches
`path.substr(libPath.length)` where `libPath` is again the undefined
parameter, so a TypeError is raised (`.error`). -/
def getLevel1Id (fs : Fs) (fuel : Nat) (path : String) : Except Unit String :=
  if !strContains path "library" then .ok ""
  else
    match getLibraryFolder fs fuel (some path) with
    | none => .ok ""
    | some lib => if lib.length < 8 then .ok "" else .error ()

/-- The entry-list block contributed by one directory entry, phrased after
the specification: nothing for a hidden name; for a subdirectory one folder
record immediately followed by the entire recursively computed sub-list; for
a file (at depth > 0) one file record. -/
def blockOf (fs : Fs) (sub : String → TreeObj × List Entry × List String)
    (dirPath : String) (depth : Nat) (name : String) : List Entry :=
  if hiddenName name then []
  else
    match statIsDir fs (filePathOf dirPath depth name) with
    | .ok true =>
      ⟨depth, "folder", name, dirPath⟩ :: (sub (filePathOf dirPath depth name)).2.1
    | .ok false => if 0 < depth then [⟨depth, "file", name, dirPath⟩] else []
    | .error _ => []

/-- `blockOf` specialized to the recursive call `_listSubFolder` makes at
depth + 1, as the specification describes the sub-list. -/
def specEntryBlock (fs : Fs) (fuel : Nat) (dirPath : String) (depth : Nat)
    (name : String) : List Entry :=
  blockOf fs (fun q => _listSubFolder fs fuel q (depth + 1) [] [] []) dirPath depth name

/-! ## Helper lemmas about the tree object -/

theorem treeGet_treeSet_self (t : TreeObj) (k : String) (v : TreeVal) :
    treeGet (treeSet t k v) k = some v := by
  induction t with
  | nil => simp [treeSet, treeGet]
  | cons kv rest ih =>
    obtain ⟨k', v'⟩ := kv
    by_cases h : k' = k
    · simp [treeSet, treeGet, h]
    · simp [treeSet, treeGet, h, ih]

theorem treeGet_treeSet_other (t : TreeObj) (k : String) (v : TreeVal)
    (k' : String) (h : k ≠ k') : treeGet (treeSet t k v) k' = treeGet t k' := by
  induction t with
  | nil => simp [treeSet, treeGet, h]
  | cons kv rest ih =>
    obtain ⟨k₀, v₀⟩ := kv
    by_cases h0 : k₀ = k
    · subst h0
      simp [treeSet, treeGet, h]
    · simp [treeSet, treeGet, h0, ih]

theorem mem_treeSet (t : TreeObj) (k : String) (v : TreeVal)
    (kv : String × TreeVal) (h : kv ∈ treeSet t k v) : kv = (k, v) ∨ kv ∈ t := by
  induction t with
  | nil => simpa [treeSet] using h
  | cons kv0 rest ih =>
    obtain ⟨k₀, v₀⟩ := kv0
    by_cases h0 : k₀ = k
    · subst h0
      simp only [treeSet, if_pos rfl] at h
      rcases List.mem_cons.1 h with h | h
      · exact Or.inl h
      · exact Or.inr (List.mem_cons_of_mem _ h)
    · simp only [treeSet, if_neg h0] at h
      rcases List.mem_cons.1 h with h | h
      · exact Or.inr (List.mem_cons.2 (Or.inl h))
      · rcases ih h with h | h
        · exact Or.inl h
        · exact Or.inr (List.mem_cons_of_mem _ h)

/-! ## Helper lemmas about one level of the walker loop -/

theorem walkLoop_allHidden (fs : Fs)
    (sub : String → TreeObj × List Entry × List String) (p : String) (d : Nat)
    (names : List String) (t : TreeObj) (l : List Entry) (f : List String)
    (h : ∀ n ∈ names, hiddenName n = true) :
    walkLoop fs sub p d names t l f = (false, t, l, f) := by
  induction names generalizing t l f with
  | nil => simp [walkLoop]
  | cons n rest ih =>
    have hn : hiddenName n = true := h n (List.mem_cons_self n rest)
    simp only [walkLoop, hn, if_pos]
    exact ih t l f fun m hm => h m (List.mem_cons_of_mem _ hm)

theorem walkLoop_treeGet_notmem (fs : Fs)
    (sub : String → TreeObj × List Entry × List String) (p : String) (d : Nat)
    (names : List String) (t : TreeObj) (l : List Entry) (f : List String)
    (n : String) (h : n ∉ names) :
    treeGet (walkLoop fs sub p d names t l f).2.1 n = treeGet t n := by
  induction names generalizing t l f with
  | nil => simp [walkLoop]
  | cons m rest ih =>
    have hmn : m ≠ n := fun e => h (e ▸ List.mem_cons_self m rest)
    have hrest : n ∉ rest := fun e => h (List.mem_cons_of_mem _ e)
    cases hm : hiddenName m with
    | true =>
      simp only [walkLoop, hm, if_pos]
      exact ih _ _ _ hrest
    | false =>
      cases hst : statIsDir fs (filePathOf p d m) with
      | error e => simp [walkLoop, hm, hst]
      | ok b =>
        cases b with
        | true =>
          simp only [walkLoop, hm, hst, Bool.false_eq_true, if_false]
          rw [ih _ _ _ hrest, treeGet_treeSet_other _ _ _ _ hmn]
        | false =>
          by_cases hd : 0 < d
          · simp only [walkLoop, hm, hst, Bool.false_eq_true, if_false, if_pos hd]
            rw [ih _ _ _ hrest, treeGet_treeSet_other _ _ _ _ hmn]
          · simp only [walkLoop, hm, hst, Bool.false_eq_true, if_false, if_neg hd]
            exact ih _ _ _ hrest

theorem walkLoop_entries_prop (fs : Fs)
    (sub : String → TreeObj × List Entry × List String) (p : String) (d : Nat)
    (P : Entry → Prop)
    (hsub : ∀ q e, e ∈ (sub q).2.1 → P e)
    (hfold : ∀ name, hiddenName name = false → P ⟨d, "folder", name, p⟩)
    (hfile : ∀ name, hiddenName name = false → 0 < d → P ⟨d, "file", name, p⟩)
    (names : List String) :
    ∀ t l f, (∀ e ∈ l, P e) →
      ∀ e ∈ (walkLoop fs sub p d names t l f).2.2.1, P e := by
  induction names with
  | nil =>
    intro t l f hl e he
    simp only [walkLoop] at he
    exact hl e he
  | cons n rest ih =>
    intro t l f hl e he
    cases hn : hiddenName n with
    | true =>
      simp only [walkLoop, hn, if_pos] at he
      exact ih _ _ _ hl e he
    | false =>
      cases hst : statIsDir fs (filePathOf p d n) with
      | error err =>
        simp only [walkLoop, hn, hst, Bool.false_eq_true, if_false] at he
        exact hl e he
      | ok b =>
        cases b with
        | true =>
          simp only [walkLoop, hn, hst, Bool.false_eq_true, if_false] at he
          refine ih _ _ _ ?_ e he
          intro e' he'
          rcases List.mem_append.1 he' with h | h
          · exact hl e' h
          · rcases List.mem_cons.1 h with h | h
            · exact h ▸ hfold n hn
            · exact hsub _ e' h
        | false =>
          by_cases hd : 0 < d
          · simp only [walkLoop, hn, hst, Bool.false_eq_true, if_false,
              if_pos hd] at he
            refine ih _ _ _ ?_ e he
            intro e' he'
            rcases List.mem_append.1 he' with h | h
            · exact hl e' h
            · rcases List.mem_cons.1 h with h | h
              · exact h ▸ hfile n hn hd
              · simp at h
          · simp only [walkLoop, hn, hst, Bool.false_eq_true, if_false,
              if_neg hd] at he
            exact ih _ _ _ hl e he

theorem walkLoop_tree_prop (fs : Fs)
    (sub : String → TreeObj × List Entry × List String) (p : String) (d : Nat)
    (Q : String × TreeVal → Prop)
    (hdir : ∀ name, hiddenName name = false →
      Q (name, TreeVal.sub (sub (filePathOf p d name)).1))
    (hfile : ∀ name, hiddenName name = false → 0 < d → Q (name, TreeVal.file))
    (names : List String) :
    ∀ t l f, (∀ kv ∈ t, Q kv) →
      ∀ kv ∈ (walkLoop fs sub p d names t l f).2.1, Q kv := by
  induction names with
  | nil =>
    intro t l f ht kv hkv
    simp only [walkLoop] at hkv
    exact ht kv hkv
  | cons n rest ih =>
    intro t l f ht kv hkv
    cases hn : hiddenName n with
    | true =>
      simp only [walkLoop, hn, if_pos] at hkv
      exact ih _ _ _ ht kv hkv
    | false =>
      cases hst : statIsDir fs (filePathOf p d n) with
      | error err =>
        simp only [walkLoop, hn, hst, Bool.false_eq_true, if_false] at hkv
        exact ht kv hkv
      | ok b =>
        cases b with
        | true =>
          simp only [walkLoop, hn, hst, Bool.false_eq_true, if_false] at hkv
          refine ih _ _ _ ?_ kv hkv
          intro kv' hkv'
          rcases mem_treeSet _ _ _ _ hkv' with h | h
          · exact h ▸ hdir n hn
          · exact ht kv' h
        | false =>
          by_cases hd : 0 < d
          · simp only [walkLoop, hn, hst, Bool.false_eq_true, if_false,
              if_pos hd] at hkv
            refine ih _ _ _ ?_ kv hkv
            intro kv' hkv'
            rcases mem_treeSet _ _ _ _ hkv' with h | h
            · exact h ▸ hfile n hn hd
            · exact ht kv' h
          · simp only [walkLoop, hn, hst, Bool.false_eq_true, if_false,
              if_neg hd] at hkv
            exact ih _ _ _ ht kv hkv

theorem walkLoop_list_eq (fs : Fs)
    (sub : String → TreeObj × List Entry × List String) (p : String) (d : Nat)
    (names : List String) :
    ∀ t l f,
      (∀ n ∈ names, hiddenName n = false →
        (statIsDir fs (filePathOf p d n)).isOk = true) →
      (walkLoop fs sub p d names t l f).2.2.1 =
        l ++ (names.map (blockOf fs sub p d)).flatten := by
  induction names with
  | nil => intro t l f _; simp [walkLoop]
  | cons n rest ih =>
    intro t l f hstats
    have hrest : ∀ m ∈ rest, hiddenName m = false →
        (statIsDir fs (filePathOf p d m)).isOk = true :=
      fun m hm => hstats m (List.mem_cons_of_mem _ hm)
    cases hn : hiddenName n with
    | true =>
      simp only [walkLoop, hn, if_pos]
      rw [ih _ _ _ hrest]
      simp [blockOf, hn]
    | false =>
      cases hst : statIsDir fs (filePathOf p d n) with
      | error err =>
        have := hstats n (List.mem_cons_self n rest) hn
        rw [hst] at this
        simp [Except.isOk, Except.toBool] at this
      | ok b =>
        cases b with
        | true =>
          simp only [walkLoop, hn, hst, Bool.false_eq_true, if_false]
          rw [ih _ _ _ hrest]
          simp [blockOf, hn, hst]
        | false =>
          by_cases hd : 0 < d
          · simp only [walkLoop, hn, hst, Bool.false_eq_true, if_false,
              if_pos hd]
            rw [ih _ _ _ hrest]
            simp [blockOf, hn, hst, hd]
          · simp only [walkLoop, hn, hst, Bool.false_eq_true, if_false,
              if_neg hd]
            rw [ih _ _ _ hrest]
            simp [blockOf, hn, hst, hd]

/-- The file-path list that the entry list determines: one full path per
file-type record. -/
def renderFiles (l : List Entry) : List String :=
  (l.filter fun e => e.type == "file").map fun e => filePathOf e.path e.depth e.name

theorem renderFiles_append (l l' : List Entry) :
    renderFiles (l ++ l') = renderFiles l ++ renderFiles l' := by
  simp [renderFiles]

theorem walkLoop_filesInv (fs : Fs)
    (sub : String → TreeObj × List Entry × List String) (p : String) (d : Nat)
    (hsub : ∀ q, (sub q).2.2 = renderFiles (sub q).2.1)
    (names : List String) :
    ∀ t l f, f = renderFiles l →
      (walkLoop fs sub p d names t l f).2.2.2 =
        renderFiles (walkLoop fs sub p d names t l f).2.2.1 := by
  induction names with
  | nil => intro t l f hf; simpa [walkLoop] using hf
  | cons n rest ih =>
    intro t l f hf
    cases hn : hiddenName n with
    | true =>
      simp only [walkLoop, hn, if_pos]
      exact ih _ _ _ hf
    | false =>
      cases hst : statIsDir fs (filePathOf p d n) with
      | error err =>
        simp only [walkLoop, hn, hst, Bool.false_eq_true, if_false]
        exact hf
      | ok b =>
        cases b with
        | true =>
          simp only [walkLoop, hn, hst, Bool.false_eq_true, if_false]
          refine ih _ _ _ ?_
          rw [hf, hsub, renderFiles_append]
          congr 1
        | false =>
          by_cases hd : 0 < d
          · simp only [walkLoop, hn, hst, Bool.false_eq_true, if_false,
              if_pos hd]
            refine ih _ _ _ ?_
            rw [hf, renderFiles_append]
            congr 1
          · simp only [walkLoop, hn, hst, Bool.false_eq_true, if_false,
              if_neg hd]
            exact ih _ _ _ hf

theorem walkLoop_treeGet_file (fs : Fs)
    (sub : String → TreeObj × List Entry × List String) (p : String) (d : Nat)
    (name : String) (hd : 0 < d) (hn : hiddenName name = false)
    (hstat : statIsDir fs (filePathOf p d name) = .ok false)
    (names : List String) :
    ∀ t l f, names.Nodup → name ∈ names →
      (∀ m ∈ names, hiddenName m = false →
        (statIsDir fs (filePathOf p d m)).isOk = true) →
      treeGet (walkLoop fs sub p d names t l f).2.1 name = some TreeVal.file := by
  induction names with
  | nil => intro t l f _ hmem _; simp at hmem
  | cons m rest ih =>
    intro t l f hnd hmem hstats
    have hrest : ∀ m' ∈ rest, hiddenName m' = false →
        (statIsDir fs (filePathOf p d m')).isOk = true :=
      fun m' hm' => hstats m' (List.mem_cons_of_mem _ hm')
    rcases List.mem_cons.1 hmem with heq | hmem'
    · subst heq
      have hnotin : name ∉ rest := (List.nodup_cons.1 hnd).1
      simp only [walkLoop, hn, Bool.false_eq_true, if_false, hstat, if_pos hd]
      rw [walkLoop_treeGet_notmem _ _ _ _ _ _ _ _ _ hnotin,
        treeGet_treeSet_self]
    · have hnd' : rest.Nodup := (List.nodup_cons.1 hnd).2
      cases hm : hiddenName m with
      | true =>
        simp only [walkLoop, hm, if_pos]
        exact ih _ _ _ hnd' hmem' hrest
      | false =>
        cases hst : statIsDir fs (filePathOf p d m) with
        | error err =>
          have := hstats m (List.mem_cons_self m rest) hm
          rw [hst] at this
          simp [Except.isOk, Except.toBool] at this
        | ok b =>
          cases b with
          | true =>
            simp only [walkLoop, hm, hst, Bool.false_eq_true, if_false]
            exact ih _ _ _ hnd' hmem' hrest
          | false =>
            simp only [walkLoop, hm, hst, Bool.false_eq_true, if_false,
              if_pos hd]
            exact ih _ _ _ hnd' hmem' hrest

/-! ## Lemmas about the full walker -/

theorem listSub_entries_prop (fs : Fs) (P : Entry → Prop)
    (hfold : ∀ dp dd name, hiddenName name = false → P ⟨dd, "folder", name, dp⟩)
    (hfile : ∀ dp dd name, hiddenName name = false → 0 < dd →
      P ⟨dd, "file", name, dp⟩) :
    ∀ fuel p d e, e ∈ (_listSubFolder fs fuel p d [] [] []).2.1 → P e := by
  intro fuel
  induction fuel with
  | zero => intro p d e he; simp [_listSubFolder] at he
  | succ fuel ih =>
    intro p d e he
    cases hrd : readdirSync fs p with
    | error err => simp [_listSubFolder, hrd] at he
    | ok names =>
      simp only [_listSubFolder, hrd] at he
      refine walkLoop_entries_prop fs _ p d P ?_ ?_ ?_ names [] [] []
        (by simp) e he
      · intro q e' he'
        exact ih q (d + 1) e' he'
      · intro name hn
        exact hfold p d name hn
      · intro name hn hd
        exact hfile p d name hn hd

theorem listSub_filesInv (fs : Fs) :
    ∀ fuel p d, (_listSubFolder fs fuel p d [] [] []).2.2 =
      renderFiles (_listSubFolder fs fuel p d [] [] []).2.1 := by
  intro fuel
  induction fuel with
  | zero => intro p d; simp [_listSubFolder, renderFiles]
  | succ fuel ih =>
    intro p d
    cases hrd : readdirSync fs p with
    | error err => simp [_listSubFolder, hrd, renderFiles]
    | ok names =>
      simp only [_listSubFolder, hrd]
      exact walkLoop_filesInv fs _ p d (fun q => ih q (d + 1)) names [] [] []
        (by simp [renderFiles])

/-! ## Concrete filesystems used by witnesses and counterexamples -/

/-- A library-like tree: directory lib containing subdirectory sub (with one
file a.md) and one top-level file top.md. -/
def fsW : Fs :=
  ⟨.dir [("lib", .dir [("sub", .dir [("a.md", .file)]), ("top.md", .file)])], [], []⟩

theorem folder_ne_file : ("folder" : String) = "file" → False := by decide

/-- C1: for every scan of a directory at depth 0, files directly under the
scanned root are excluded from all three outputs (no file value in the tree,
no depth-0 file record in the entry list, every file-list element stems from
a file record of depth > 0), while every file encountered at depth > 0 — a
non-hidden listing entry whose stat answers "not a directory", in a listing
whose non-hidden entries all stat successfully — is recorded in all three:
tree[name] = false, an entry record {depth, type:'file', name, path}, and
its full path in the file list. -/
theorem claimC1 :
    (∀ (fs : Fs) (fuel : Nat) (p : String),
      (∀ kv ∈ (_listSubFolder fs fuel p 0 [] [] []).1, kv.2 ≠ TreeVal.file)
      ∧ (∀ e ∈ (_listSubFolder fs fuel p 0 [] [] []).2.1,
          e.type = "file" → 0 < e.depth)
      ∧ (∀ fp ∈ (_listSubFolder fs fuel p 0 [] [] []).2.2,
          ∃ e ∈ (_listSubFolder fs fuel p 0 [] [] []).2.1,
            e.type = "file" ∧ 0 < e.depth ∧ fp = filePathOf e.path e.depth e.name))
    ∧ (∀ (fs : Fs) (fuel : Nat) (p : String) (d : Nat) (names : List String)
        (name : String), 0 < d → readdirSync fs p = .ok names → names.Nodup →
        (∀ n ∈ names, hiddenName n = false →
          (statIsDir fs (filePathOf p d n)).isOk = true) →
        name ∈ names → hiddenName name = false →
        statIsDir fs (filePathOf p d name) = .ok false →
        treeGet (_listSubFolder fs (fuel + 1) p d [] [] []).1 name
            = some TreeVal.file
        ∧ Entry.mk d "file" name p ∈ (_listSubFolder fs (fuel + 1) p d [] [] []).2.1
        ∧ filePathOf p d name ∈ (_listSubFolder fs (fuel + 1) p d [] [] []).2.2) := by
  constructor
  · intro fs fuel p
    refine ⟨?_, ?_, ?_⟩
    · cases fuel with
      | zero => intro kv hkv; simp [_listSubFolder] at hkv
      | succ fuel =>
        intro kv hkv
        cases hrd : readdirSync fs p with
        | error err => simp [_listSubFolder, hrd] at hkv
        | ok names =>
          simp only [_listSubFolder, hrd] at hkv
          refine walkLoop_tree_prop fs _ p 0 (fun kv => kv.2 ≠ TreeVal.file)
            ?_ ?_ names [] [] [] (by simp) kv hkv
          · intro name _; simp
          · intro name _ hd; simp at hd
    · intro e he hty
      exact listSub_entries_prop fs (fun e => e.type = "file" → 0 < e.depth)
        (fun dp dd name _ h => absurd h folder_ne_file)
        (fun dp dd name _ hd _ => hd) fuel p 0 e he hty
    · intro fp hfp
      rw [listSub_filesInv] at hfp
      simp only [renderFiles, List.mem_map] at hfp
      obtain ⟨e, hef, hfp⟩ := hfp
      rw [List.mem_filter] at hef
      obtain ⟨hel, hty⟩ := hef
      have hty' : e.type = "file" := by simpa using hty
      refine ⟨e, hel, hty', ?_, hfp.symm⟩
      exact listSub_entries_prop fs (fun e => e.type = "file" → 0 < e.depth)
        (fun dp dd name _ h => absurd h folder_ne_file)
        (fun dp dd name _ hd _ => hd) fuel p 0 e hel hty'
  · intro fs fuel p d names name hd hrd hnd hstats hmem hn hstat
    refine ⟨?_, ?_, ?_⟩
    · simp only [_listSubFolder, hrd]
      exact walkLoop_treeGet_file fs _ p d name hd hn hstat names [] [] []
        hnd hmem hstats
    · simp only [_listSubFolder, hrd]
      rw [walkLoop_list_eq fs _ p d names [] [] [] hstats]
      simp only [List.nil_append]
      rw [List.mem_flatten]
      refine ⟨blockOf fs _ p d name, List.mem_map_of_mem _ hmem, ?_⟩
      simp [blockOf, hn, hstat, hd]
    · rw [listSub_filesInv]
      simp only [renderFiles, List.mem_map]
      refine ⟨Entry.mk d "file" name p, ?_, rfl⟩
      rw [List.mem_filter]
      refine ⟨?_, rfl⟩
      simp only [_listSubFolder, hrd]
      rw [walkLoop_list_eq fs _ p d names [] [] [] hstats]
      simp only [List.nil_append]
      rw [List.mem_flatten]
      refine ⟨blockOf fs _ p d name, List.mem_map_of_mem _ hmem, ?_⟩
      simp [blockOf, hn, hstat, hd]

/-- Witness for C1 at a concrete filesystem: scanning /lib/ at depth 0
excludes the top-level file from the tree, and scanning /lib/sub at depth 1
records the file a.md in tree, entry list and file list. -/
theorem claimC1_witness :
    (∀ kv ∈ (_listSubFolder fsW 3 "/lib/" 0 [] [] []).1, kv.2 ≠ TreeVal.file)
    ∧ treeGet (_listSubFolder fsW 1 "/lib/sub" 1 [] [] []).1 "a.md"
        = some TreeVal.file
    ∧ Entry.mk 1 "file" "a.md" "/lib/sub" ∈ (_listSubFolder fsW 1 "/lib/sub" 1 [] [] []).2.1
    ∧ filePathOf "/lib/sub" 1 "a.md" ∈ (_listSubFolder fsW 1 "/lib/sub" 1 [] [] []).2.2 := by
  have h2 := claimC1.2 fsW 0 "/lib/sub" 1 ["a.md"] "a.md" (by decide) (by rfl)
    (by simp)
    (by intro n hn _; rw [List.mem_singleton] at hn; subst hn; rfl)
    (by simp) (by rfl) (by rfl)
  exact ⟨(claimC1.1 fsW 3 "/lib/").1, h2.1, h2.2.1, h2.2.2⟩

theorem listSub_allHidden (fs : Fs) (fuel : Nat) (p : String) (d : Nat)
    (t : TreeObj) (l : List Entry) (f : List String) (names : List String)
    (hrd : readdirSync fs p = .ok names)
    (hh : ∀ n ∈ names, hiddenName n = true) :
    _listSubFolder fs fuel p d t l f = (t, l, f) := by
  cases fuel with
  | zero => simp [_listSubFolder]
  | succ fuel =>
    simp only [_listSubFolder, hrd]
    rw [walkLoop_allHidden fs _ p d names t l f hh]

/-- A directory containing only hidden entries. -/
def fsH : Fs :=
  ⟨.dir [("h", .dir [(".git", .dir [("x", .file)]), (".hidden.md", .file)])], [], []⟩

/-- C2: entries whose name begins with a dot contribute nothing to the tree,
the entry list, or the file list: a listing of only hidden names leaves the
accumulators untouched (so an only-hidden directory scans to an empty tree,
entry list and file list, whatever is behind the hidden names — they are
skipped before any stat or recursion), and in any scan every entry-list
record, every top-level tree key and every file-list path carries a
non-hidden name. -/
theorem claimC2 :
    (∀ (fs : Fs) (fuel : Nat) (p : String) (d : Nat) (t : TreeObj)
        (l : List Entry) (f : List String) (names : List String),
      readdirSync fs p = .ok names → (∀ n ∈ names, hiddenName n = true) →
      _listSubFolder fs fuel p d t l f = (t, l, f))
    ∧ (∀ (fs : Fs) (fuel : Nat) (p : String) (d : Nat) (names : List String),
      readdirSync fs p = .ok names → (∀ n ∈ names, hiddenName n = true) →
      _listSubFolder fs fuel p d [] [] [] = ([], [], []))
    ∧ (∀ (fs : Fs) (fuel : Nat) (p : String) (d : Nat),
      (∀ e ∈ (_listSubFolder fs fuel p d [] [] []).2.1,
        hiddenName e.name = false)
      ∧ (∀ kv ∈ (_listSubFolder fs fuel p d [] [] []).1,
        hiddenName kv.1 = false)
      ∧ ∀ fp ∈ (_listSubFolder fs fuel p d [] [] []).2.2,
          ∃ e ∈ (_listSubFolder fs fuel p d [] [] []).2.1,
            hiddenName e.name = false ∧ fp = filePathOf e.path e.depth e.name) := by
  refine ⟨fun fs fuel p d t l f names hrd hh =>
    listSub_allHidden fs fuel p d t l f names hrd hh,
    fun fs fuel p d names hrd hh =>
      listSub_allHidden fs fuel p d [] [] [] names hrd hh, ?_⟩
  intro fs fuel p d
  refine ⟨?_, ?_, ?_⟩
  · intro e he
    exact listSub_entries_prop fs (fun e => hiddenName e.name = false)
      (fun dp dd name hn => hn) (fun dp dd name hn _ => hn) fuel p d e he
  · cases fuel with
    | zero => intro kv hkv; simp [_listSubFolder] at hkv
    | succ fuel =>
      intro kv hkv
      cases hrd : readdirSync fs p with
      | error err => simp [_listSubFolder, hrd] at hkv
      | ok names =>
        simp only [_listSubFolder, hrd] at hkv
        refine walkLoop_tree_prop fs _ p d (fun kv => hiddenName kv.1 = false)
          ?_ ?_ names [] [] [] (by simp) kv hkv
        · intro name hn; exact hn
        · intro name hn _; exact hn
  · intro fp hfp
    rw [listSub_filesInv] at hfp
    simp only [renderFiles, List.mem_map] at hfp
    obtain ⟨e, hef, hfp⟩ := hfp
    rw [List.mem_filter] at hef
    refine ⟨e, hef.1, ?_, hfp.symm⟩
    exact listSub_entries_prop fs (fun e => hiddenName e.name = false)
      (fun dp dd name hn => hn) (fun dp dd name hn _ => hn) fuel p d e hef.1

/-- Witness for C2: the directory /h/ contains only the hidden entries .git
and .hidden.md, and scanning it yields empty tree, entry list and file
list. -/
theorem claimC2_witness :
    _listSubFolder fsH 2 "/h/" 0 [] [] [] = ([], [], []) :=
  claimC2.2.1 fsH 2 "/h/" 0 [".git", ".hidden.md"] (by rfl)
    (by
      intro n hn
      rw [List.mem_cons, List.mem_singleton] at hn
      rcases hn with rfl | rfl <;> rfl)

/-- C3: the entry list is produced depth-first in directory-enumeration
order, parents before children: one level's list is the concatenation, over
the listing in order, of per-entry blocks, where a subdirectory contributes
its folder record {depth, type:'folder', name, path:dirPath} immediately
followed by its entire recursively computed sub-list, in its already
computed order (hypothesis: the non-hidden entries of the listing stat
without error, so the loop is not cut short). -/
theorem claimC3 (fs : Fs) (fuel : Nat) (p : String) (d : Nat) (t : TreeObj)
    (l : List Entry) (f : List String) (names : List String)
    (hrd : readdirSync fs p = .ok names)
    (hstats : ∀ n ∈ names, hiddenName n = false →
      (statIsDir fs (filePathOf p d n)).isOk = true) :
    (_listSubFolder fs (fuel + 1) p d t l f).2.1 =
      l ++ (names.map (specEntryBlock fs fuel p d)).flatten := by
  simp only [_listSubFolder, hrd]
  exact walkLoop_list_eq fs _ p d names t l f hstats

/-- Witness for C3 at a concrete filesystem: the scan of /lib/ lists the
folder record of sub, then sub's sub-list, in order. -/
theorem claimC3_witness :
    (_listSubFolder fsW 3 "/lib/" 0 [] [] []).2.1 =
      [] ++ ((["sub", "top.md"]).map (specEntryBlock fsW 2 "/lib/" 0)).flatten :=
  claimC3 fsW 2 "/lib/" 0 [] [] [] ["sub", "top.md"] (by rfl)
    (by
      intro n hn _
      rw [List.mem_cons, List.mem_singleton] at hn
      rcases hn with rfl | rfl <;> rfl)

/-- C4: the walker always returns a 3-tuple and never raises: it equals the
caught projection of its try-body, and when the directory read fails the
accumulators passed in (possibly the empty seeds) are returned unchanged. -/
theorem claimC4 :
    (∀ (fs : Fs) (fuel : Nat) (p : String) (d : Nat) (t : TreeObj)
        (l : List Entry) (f : List String),
      (readdirSync fs p).isOk = false →
      _listSubFolder fs fuel p d t l f = (t, l, f))
    ∧ (∀ (fs : Fs) (fuel : Nat) (p : String) (d : Nat) (t : TreeObj)
        (l : List Entry) (f : List String),
      _listSubFolder fs fuel p d t l f = (listSubFolderTry fs fuel p d t l f).2) := by
  constructor
  · intro fs fuel p d t l f h
    cases fuel with
    | zero => simp [_listSubFolder]
    | succ fuel =>
      cases hrd : readdirSync fs p with
      | error err => simp [_listSubFolder, hrd]
      | ok names =>
        rw [hrd] at h
        simp [Except.isOk, Except.toBool] at h
  · intro fs fuel p d t l f
    cases fuel with
    | zero => rfl
    | succ fuel =>
      cases hrd : readdirSync fs p with
      | error err => simp [_listSubFolder, listSubFolderTry, hrd]
      | ok names => simp [_listSubFolder, listSubFolderTry, hrd]

/-- Witness for C4: reading a nonexistent directory fails, and the walker
returns the empty seeds. -/
theorem claimC4_witness :
    _listSubFolder fsW 5 "/nope" 0 [] [] [] = ([], [], []) :=
  claimC4.1 fsW 5 "/nope" 0 [] [] [] (by rfl)

/-- A filesystem on which the stat of /lib/ghost is denied. -/
def fsD : Fs := ⟨.dir [("lib", .dir [("ghost", .file)])], [["lib", "ghost"]], []⟩

/-- Counterexample to C5 as stated: a failing statSync during the tree walk
does NOT propagate to the walker's caller.  On fsD the stat of /lib/ghost
raises inside the loop — the try-body reports the raised flag — yet
_listSubFolder returns the ordinary (partial) 3-tuple instead of raising,
because the statSync sits inside the walker's try/catch. -/
theorem claimC5_counterexample :
    (statIsDir fsD "/lib/ghost").isOk = false
    ∧ listSubFolderTry fsD 1 "/lib/" 0 [] [] [] = (true, [], [], [])
    ∧ _listSubFolder fsD 1 "/lib/" 0 [] [] [] = ([], [], []) :=
  ⟨rfl, rfl, rfl⟩

/-- C5 (amended): the stat during the tree walk is guarded by the walker's
try/catch and is caught like a directory-read failure (the walker returns
the accumulators built so far); the filesystem operations of cleanFolder
(stat, unlink, rmdir) and createFolder (mkdir) are unguarded — their
failures propagate as raised errors to the immediate caller with no retry
and no recovery. -/
theorem claimC5 :
    (∀ (fs : Fs) (fuel : Nat) (p : String) (d : Nat) (t : TreeObj)
        (l : List Entry) (f : List String) (name : String) (rest : List String),
      readdirSync fs p = .ok (name :: rest) → hiddenName name = false →
      (statIsDir fs (filePathOf p d name)).isOk = false →
      _listSubFolder fs (fuel + 1) p d t l f = (t, l, f))
    ∧ (∀ (fs : Fs) (fuel : Nat) (path item : String) (rest : List String),
      readdirSync fs path = .ok (item :: rest) →
      (statIsDir fs (cleanPathJoin path item)).isOk = false →
      cleanFolder (fuel + 1) fs path = .error ())
    ∧ (∀ (fs : Fs) (fuel : Nat) (path item : String) (rest : List String),
      readdirSync fs path = .ok (item :: rest) →
      statIsDir fs (cleanPathJoin path item) = .ok false →
      unlinkSync fs (cleanPathJoin path item) = .error () →
      cleanFolder (fuel + 1) fs path = .error ())
    ∧ (∀ (fs fs1 : Fs) (fuel : Nat) (path item : String) (rest : List String),
      readdirSync fs path = .ok (item :: rest) → hiddenName item = false →
      statIsDir fs (cleanPathJoin path item) = .ok true →
      cleanFolder fuel fs (cleanPathJoin path item) = .ok fs1 →
      rmdirSync fs1 (cleanPathJoin path item) = .error () →
      cleanFolder (fuel + 1) fs path = .error ())
    ∧ (∀ (fs : Fs) (fuel : Nat) (p : String),
      existsSync fs (getParentFolder p) = true →
      existsSync fs (some p) = false →
      mkdirSync fs p = .error () →
      createFolder fs (fuel + 1) (some p) = .error ()) := by
  refine ⟨?_, ?_, ?_, ?_, ?_⟩
  · intro fs fuel p d t l f name rest hrd hn hst
    simp only [_listSubFolder, hrd]
    cases hstat : statIsDir fs (filePathOf p d name) with
    | error err => simp [walkLoop, hn, hstat]
    | ok b =>
      rw [hstat] at hst
      simp [Except.isOk, Except.toBool] at hst
  · intro fs fuel path item rest hrd hst
    simp only [cleanFolder, hrd]
    cases hstat : statIsDir fs (cleanPathJoin path item) with
    | error err => cases err; simp [cleanLoop, hstat]
    | ok b =>
      rw [hstat] at hst
      simp [Except.isOk, Except.toBool] at hst
  · intro fs fuel path item rest hrd hst hunl
    simp only [cleanFolder, hrd]
    simp [cleanLoop, hst, hunl]
  · intro fs fs1 fuel path item rest hrd hitem hst hclean hrm
    simp only [cleanFolder, hrd]
    simp [cleanLoop, hst, hitem, hclean, hrm]
  · intro fs fuel p hpar hpath hmk
    simp only [createFolder]
    simp [hpar, hpath, hmk]

/-- A file whose unlink is denied. -/
def fsU : Fs := ⟨.dir [("lib", .dir [("f.md", .file)])], [], [["lib", "f.md"]]⟩

/-- An empty subdirectory whose rmdir is denied. -/
def fsR : Fs := ⟨.dir [("lib", .dir [("sub", .dir [])])], [], [["lib", "sub"]]⟩

/-- An existing parent under which mkdir is denied. -/
def fsM : Fs := ⟨.dir [("a", .dir [])], [], [["a", "b"]]⟩

/-- Witness for C5 (amended), at concrete filesystems: the walker swallows a
denied stat; cleanFolder propagates a denied stat, a denied unlink and a
denied rmdir; createFolder propagates a denied mkdir. -/
theorem claimC5_witness :
    _listSubFolder fsD 1 "/lib/" 0 [] [] [] = ([], [], [])
    ∧ cleanFolder 1 fsD "/lib/" = .error ()
    ∧ cleanFolder 1 fsU "/lib/" = .error ()
    ∧ cleanFolder 2 fsR "/lib/" = .error ()
    ∧ createFolder fsM 1 (some "/a/b") = .error () :=
  ⟨claimC5.1 fsD 0 "/lib/" 0 [] [] [] "ghost" [] (by rfl) (by rfl) (by rfl),
   claimC5.2.1 fsD 0 "/lib/" "ghost" [] (by rfl) (by rfl),
   claimC5.2.2.1 fsU 0 "/lib/" "f.md" [] (by rfl) (by rfl) (by rfl),
   claimC5.2.2.2.1 fsR fsR 1 "/lib/" "sub" [] (by rfl) (by rfl) (by rfl)
     (by rfl) (by rfl),
   claimC5.2.2.2.2 fsM 0 "/a/b" (by rfl) (by rfl) (by rfl)⟩

/-- A directory named xlibrary: its name ends in the letters "library" but
the segment is not literally "library". -/
def fsX : Fs := ⟨.dir [("xlibrary", .dir [])], [], []⟩

/-- Counterexample to C6 as stated: the path /xlibrary/ does not end in a
segment literally named "library" (its single segment is "xlibrary"), yet
readLibraryTree does not return the empty array — the source tests the
suffix regex /library[\\\/]$/, not a whole segment. -/
theorem claimC6_counterexample :
    pathComps "/xlibrary/" = ["xlibrary"]
    ∧ ("xlibrary" : String) ≠ "library"
    ∧ readLibraryTree fsX 1 "/xlibrary/" = .ok (.triple [] [] [])
    ∧ ∀ (t : TreeObj) (l : List Entry) (f : List String),
        LibResult.triple t l f ≠ LibResult.emptyArr :=
  ⟨rfl, by decide, rfl, fun t l f h => LibResult.noConfusion h⟩

/-- C6 (amended): the precondition is a string-suffix test — a path is
rejected (warning, empty array, a shape different from the success 3-tuple)
exactly when it does not end in the substring "library" plus a separator;
on an accepted path whose top-level read succeeds the tree is pre-seeded
with at most one home-file entry — the first listing name matching the home
pattern or equal to "首页.md" — and the walker is called at depth 0 on the
seeded tree. -/
theorem claimC6 :
    (∀ (fs : Fs) (fuel : Nat) (path : String), libraryEndTest path = false →
      readLibraryTree fs fuel path = .ok .emptyArr)
    ∧ (∀ (fs : Fs) (fuel : Nat) (path : String) (names : List String),
      libraryEndTest path = true → readdirSync fs path = .ok names →
      readLibraryTree fs fuel path = .ok (.triple
        (_listSubFolder fs fuel path 0 (seedHome names) [] []).1
        (_listSubFolder fs fuel path 0 (seedHome names) [] []).2.1
        (_listSubFolder fs fuel path 0 (seedHome names) [] []).2.2))
    ∧ (∀ names : List String,
      seedHome names =
        (names.find? fun n => homeNameTest n || n = "首页.md").elim []
          (fun n => [(n, TreeVal.file)]))
    ∧ (∀ names : List String, (seedHome names).length ≤ 1) := by
  refine ⟨?_, ?_, ?_, ?_⟩
  · intro fs fuel path h
    simp [readLibraryTree, h]
  · intro fs fuel path names h hrd
    simp [readLibraryTree, h, hrd]
  · intro names
    induction names with
    | nil => simp [seedHome]
    | cons n rest ih =>
      cases hp : (homeNameTest n || decide (n = "首页.md")) with
      | true => simp [seedHome, List.find?, hp]
      | false => simpa [seedHome, List.find?, hp] using ih
  · intro names
    induction names with
    | nil => simp [seedHome]
    | cons n rest ih =>
      cases hp : (homeNameTest n || decide (n = "首页.md")) with
      | true => simp [seedHome, hp]
      | false => simpa [seedHome, hp] using ih

/-- A real library layout with a home file. -/
def fsL : Fs :=
  ⟨.dir [("proj", .dir [("library", .dir
    [("home-x.md", .file), ("sub", .dir [("a.md", .file)])])])], [], []⟩

/-- Witness for C6 (amended): a path without the library suffix is rejected
with the empty array; /proj/library/ is accepted, seeded with home-x.md, and
delegated to the walker at depth 0. -/
theorem claimC6_witness :
    readLibraryTree fsL 1 "/proj/lib" = .ok .emptyArr
    ∧ readLibraryTree fsL 3 "/proj/library/" = .ok (.triple
        (_listSubFolder fsL 3 "/proj/library/" 0
          (seedHome ["home-x.md", "sub"]) [] []).1
        (_listSubFolder fsL 3 "/proj/library/" 0
          (seedHome ["home-x.md", "sub"]) [] []).2.1
        (_listSubFolder fsL 3 "/proj/library/" 0
          (seedHome ["home-x.md", "sub"]) [] []).2.2) :=
  ⟨claimC6.1 fsL 1 "/proj/lib" (by rfl),
   claimC6.2.1 fsL 3 "/proj/library/" ["home-x.md", "sub"] (by rfl) (by rfl)⟩

/-! ## String lemmas for the path helpers -/

theorem contains_slash_count (l : List Char) :
    l.contains '/' = decide (1 ≤ l.count '/') := by
  by_cases h : '/' ∈ l
  · have h1 : l.contains '/' = true := by simpa using h
    have h2 : 0 < l.count '/' := List.count_pos_iff.2 h
    rw [h1]
    exact (decide_eq_true (by omega)).symm
  · have h1 : l.contains '/' = false := by simpa using h
    have h2 : l.count '/' = 0 := List.count_eq_zero.2 h
    rw [h1, h2]
    simp

theorem contains_removeFirstSlash (l : List Char) :
    (removeFirstSlash l).contains '/' = decide (2 ≤ l.count '/') := by
  induction l with
  | nil => rfl
  | cons c rest ih =>
    by_cases hc : c = '/'
    · subst hc
      have : removeFirstSlash ('/' :: rest) = rest := by simp [removeFirstSlash]
      rw [this, contains_slash_count, List.count_cons]
      simp only [beq_self_eq_true, if_true]
      by_cases h1 : 1 ≤ rest.count '/'
      · rw [decide_eq_true h1, decide_eq_true (by omega)]
      · rw [decide_eq_false h1, decide_eq_false (by omega)]
    · have : removeFirstSlash (c :: rest) = c :: removeFirstSlash rest := by
        simp [removeFirstSlash, hc]
      rw [this, List.count_cons]
      have hcc : ((c : Char) == '/') = false := by simpa using hc
      rw [hcc]
      simp only [Bool.false_eq_true, if_false, Nat.add_zero]
      have : (c :: removeFirstSlash rest).contains '/' =
          (removeFirstSlash rest).contains '/' := by
        simp [List.contains_cons]
        intro h
        exact absurd h.symm hc
      rw [this, ih]

theorem dropWhile_ne_slash (l : List Char) :
    (l.dropWhile fun c => c ≠ '/') = [] ∨
      ∃ r', (l.dropWhile fun c => c ≠ '/') = '/' :: r' := by
  induction l with
  | nil => exact Or.inl rfl
  | cons c rest ih =>
    by_cases hc : c = '/'
    · subst hc
      right
      exact ⟨rest, by simp [List.dropWhile]⟩
    · simpa [List.dropWhile, hc] using ih

theorem dropWhile_nil_no_slash (l : List Char)
    (h : (l.dropWhile fun c => c ≠ '/') = []) : l.contains '/' = false := by
  induction l with
  | nil => rfl
  | cons c rest ih =>
    by_cases hc : c = '/'
    · subst hc
      simp [List.dropWhile] at h
    · rw [List.dropWhile_cons, if_pos (by simp [hc])] at h
      have := ih h
      simp [List.contains_cons, this]
      exact ⟨fun h' => hc h'.symm, by simpa using this⟩

theorem takeWhile_nil_slash_head (l : List Char)
    (h : (l.takeWhile fun c => c ≠ '/') = []) :
    l = [] ∨ ∃ r', l = '/' :: r' := by
  cases l with
  | nil => exact Or.inl rfl
  | cons c rest =>
    by_cases hc : c = '/'
    · subst hc; exact Or.inr ⟨rest, rfl⟩
    · rw [List.takeWhile_cons] at h
      simp [hc] at h

theorem count_le_dropLast_succ (a : Char) :
    ∀ l : List Char, l.count a ≤ l.dropLast.count a + 1 := by
  intro l
  induction l with
  | nil => simp
  | cons c rest ih =>
    cases rest with
    | nil =>
      rw [List.count_cons]
      simp only [List.count_nil, List.dropLast_single]
      split <;> simp
    | cons d rest' =>
      have hdl : (c :: d :: rest').dropLast = c :: (d :: rest').dropLast := rfl
      rw [hdl]
      simp only [List.count_cons] at ih ⊢
      omega

theorem contains_stripTrailingSlash (p : String)
    (h : 2 ≤ p.data.count '/') :
    (stripTrailingSlash p).data.contains '/' = true := by
  have key : 1 ≤ (stripTrailingSlash p).data.count '/' := by
    unfold stripTrailingSlash
    by_cases hgl : p.data.getLast? = some '/'
    · rw [if_pos hgl]
      show 1 ≤ p.data.dropLast.count '/'
      have := count_le_dropLast_succ '/' p.data
      omega
    · rw [if_neg hgl]
      omega
  rw [contains_slash_count]
  exact decide_eq_true key

theorem strEndsWith_dropLastSeg (s : String)
    (h : s.data.contains '/' = true) :
    strEndsWith (dropLastSeg s) "/" = true := by
  have hrev : s.data.reverse.contains '/' = true := by
    have hm : '/' ∈ s.data := by simpa using h
    simpa using List.mem_reverse.2 hm
  unfold dropLastSeg
  by_cases hseg : (s.data.reverse.takeWhile fun c => c ≠ '/') = []
  · rw [if_pos hseg]
    rcases takeWhile_nil_slash_head _ hseg with hnil | ⟨r', hr⟩
    · have hd : s.data = [] := by
        have := congrArg List.reverse hnil
        simpa using this
      rw [hd] at h
      simp at h
    · unfold strEndsWith
      have hdat : ("/" : String).data.reverse = ['/'] := rfl
      rw [hdat, hr]
      simp [startsList]
  · rw [if_neg hseg]
    rcases dropWhile_ne_slash s.data.reverse with hnil | ⟨r', hr⟩
    · rw [dropWhile_nil_no_slash _ hnil] at hrev
      exact absurd hrev (by simp)
    · rw [hr]
      unfold strEndsWith
      have hdat : ("/" : String).data.reverse = ['/'] := rfl
      rw [hdat]
      have hmk : (String.mk (('/' :: r').reverse)).data.reverse = '/' :: r' := by
        simp
      rw [hmk]
      simp [startsList]

/-- Counterexample to C7 as stated: the claim gives the example
getParentFolder("/a/") = false, but "/a/" contains two separators, so the
code ascends and returns "/". -/
theorem claimC7_counterexample :
    getParentFolder "/a/" = some "/" ∧ getParentFolder "/a/" ≠ none :=
  ⟨rfl, by
    intro h
    rw [show getParentFolder "/a/" = some "/" from rfl] at h
    exact Option.noConfusion h⟩

/-- C7 (amended): getParentFolder returns false exactly when the
backslash-normalized input is a drive-letter path shorter than 3 characters
or contains at most one slash; otherwise it strips one trailing separator,
then the final segment, and the returned parent ends in a separator.
Examples: "/a/b/c/" ↦ "/a/b/"; "/a/" (two separators) ↦ "/"; "/a" (one
separator) ↦ false. -/
theorem claimC7 :
    (∀ path : String, (getParentFolder path).isNone =
      ((isDriveStart (backslashToSlash path) &&
          decide ((backslashToSlash path).length < 3)) ||
        decide ((backslashToSlash path).data.count '/' ≤ 1)))
    ∧ (∀ path q : String, getParentFolder path = some q →
        strEndsWith q "/" = true)
    ∧ getParentFolder "/a/b/c/" = some "/a/b/"
    ∧ getParentFolder "/a/" = some "/"
    ∧ getParentFolder "/a" = none := by
  refine ⟨?_, ?_, rfl, rfl, rfl⟩
  · intro path
    by_cases h1 : (isDriveStart (backslashToSlash path) &&
        decide ((backslashToSlash path).length < 3)) = true
    · simp [getParentFolder, h1]
    · have h1' : (isDriveStart (backslashToSlash path) &&
          decide ((backslashToSlash path).length < 3)) = false :=
        eq_false_of_ne_true h1
      by_cases h2 : (backslashToSlash path).data.count '/' ≤ 1
      · have hc : (removeFirstSlash (backslashToSlash path).data).contains '/'
            = false := by
          rw [contains_removeFirstSlash]
          exact decide_eq_false (by omega)
        have hm : '/' ∉ removeFirstSlash (backslashToSlash path).data := by
          simpa using hc
        simp [getParentFolder, h1', hm, h2]
      · have hc : (removeFirstSlash (backslashToSlash path).data).contains '/'
            = true := by
          rw [contains_removeFirstSlash]
          exact decide_eq_true (by omega)
        have hm : '/' ∈ removeFirstSlash (backslashToSlash path).data := by
          simpa using hc
        simp [getParentFolder, h1', hm, h2]
  · intro path q h
    simp only [getParentFolder] at h
    by_cases h1 : (isDriveStart (backslashToSlash path) &&
        decide ((backslashToSlash path).length < 3)) = true
    · rw [if_pos h1] at h
      exact absurd h (by simp)
    · rw [if_neg h1] at h
      by_cases hc : (removeFirstSlash (backslashToSlash path).data).contains '/'
          = true
      · rw [if_neg (by rw [hc]; simp)] at h
        have hcount : 2 ≤ (backslashToSlash path).data.count '/' := by
          rw [contains_removeFirstSlash] at hc
          exact of_decide_eq_true hc
        have := strEndsWith_dropLastSeg (stripTrailingSlash (backslashToSlash path))
          (contains_stripTrailingSlash _ hcount)
        rw [Option.some_inj.1 h] at this
        exact this
      · rw [if_pos (by rw [eq_false_of_ne_true hc]; rfl)] at h
        exact absurd h (by simp)

/-- Witness for C7 (amended): the parent of "/a/b/c/" ends in a slash. -/
theorem claimC7_witness :
    (getParentFolder "/a/b/c/").isNone =
      ((isDriveStart (backslashToSlash "/a/b/c/") &&
          decide ((backslashToSlash "/a/b/c/").length < 3)) ||
        decide ((backslashToSlash "/a/b/c/").data.count '/' ≤ 1))
    ∧ strEndsWith "/a/b/" "/" = true :=
  ⟨claimC7.1 "/a/b/c/", claimC7.2.1 "/a/b/c/" "/a/b/" claimC7.2.2.1⟩

/-- The empty filesystem (only a root directory). -/
def fsE : Fs := ⟨.dir [], [], []⟩

/-- C8 (code defect): getLevel1Id without a libPath argument returns "" when
the path lacks "library" or when the internal lookup fails, as claimed; but
on the happy path — getLibraryFolder resolves to a path of length ≥ 8 — the
code raises a TypeError instead of returning the first '-'/'_'-delimited
segment: the inner `let libPath` (line 211) shadows the undefined parameter,
which line 216 then dereferences (`path.substr(libPath.length)`), contrary
to the JSDoc `@returns {String}`. -/
theorem claimC8 :
    getLevel1Id fsE 9 "/abc/def" = .ok ""
    ∧ getLevel1Id fsE 9 "/xlibraryz" = .ok ""
    ∧ getLibraryFolder fsE 9 (some "/proj/library/abc-def") = some "/proj/library/"
    ∧ ("/proj/library/" : String).length = 14
    ∧ getLevel1Id fsE 9 "/proj/library/abc-def" = .error () :=
  ⟨rfl, rfl, rfl, rfl, rfl⟩

/-- A filesystem in which /a already exists. -/
def fsA : Fs := ⟨.dir [("a", .dir [])], [], []⟩

/-- Counterexample to C9 as stated: /a exists, yet createFolder("/a")
raises: getParentFolder("/a") is false (one separator), existsSync(false)
is false, so the code calls createFolder(false), and
getParentFolder(false) throws a TypeError — no idempotent no-op. -/
theorem claimC9_counterexample :
    existsSync fsA (some "/a") = true
    ∧ getParentFolder "/a" = none
    ∧ createFolder fsA 5 (some "/a") = .error () :=
  ⟨rfl, rfl, rfl⟩

/-- The filesystem after creating /a/b/c from the empty root. -/
def fsABC : Fs := ⟨.dir [("a", .dir [("b", .dir [("c", .dir [])])])], [], []⟩

/-- C9 (amended): when the computed parent path exists and the full path
already exists, createFolder performs no filesystem write and raises no
error; on a deeply nested non-existent path it creates every missing
ancestor and then the target.  (For a path whose getParentFolder is false —
a single-separator path such as "/a" — createFolder raises even when the
path exists; see the counterexample.) -/
theorem claimC9 :
    (∀ (fs : Fs) (fuel : Nat) (p : String),
      existsSync fs (getParentFolder p) = true →
      existsSync fs (some p) = true →
      createFolder fs (fuel + 1) (some p) = .ok fs)
    ∧ createFolder fsE 5 (some "/a/b/c") = .ok fsABC
    ∧ existsSync fsABC (some "/a") = true
    ∧ existsSync fsABC (some "/a/b") = true
    ∧ existsSync fsABC (some "/a/b/c") = true := by
  refine ⟨?_, rfl, rfl, rfl, rfl⟩
  intro fs fuel p hpar hpath
  simp [createFolder, hpar, hpath]

/-- Witness for C9 (amended): /a/b exists in fsABC together with its parent,
and createFolder leaves the filesystem untouched without error. -/
theorem claimC9_witness :
    createFolder fsABC 3 (some "/a/b") = .ok fsABC :=
  claimC9.1 fsABC 2 "/a/b" (by rfl) (by rfl)

theorem startsList_head (l : List Char) (c : Char) (cs : List Char)
    (h : startsList l (c :: cs) = true) : startsList l [c] = true := by
  cases l with
  | nil => simp [startsList] at h
  | cons x xs =>
    simp [startsList] at h ⊢
    exact h.1

/-- C10: the walker inserts a separator between directory path and entry
name only at depth > 0; at depth 0 the strings are concatenated directly,
so a depth-0 scan produces correct child paths only when the root path ends
with a separator — scanning "/lib" finds nothing (the stat of "libsub"
fails and the walk is cut short) while scanning "/lib/" succeeds — and
readLibraryTree's accepted paths always end with a separator, which
guarantees the precondition for its own delegation to the walker. -/
theorem claimC10 :
    (∀ (p n : String), filePathOf p 0 n = p ++ n)
    ∧ (∀ (p n : String) (d : Nat), 0 < d → filePathOf p d n = p ++ "/" ++ n)
    ∧ (∀ path : String, libraryEndTest path = true →
        (strEndsWith path "/" || strEndsWith path "\\") = true)
    ∧ (_listSubFolder fsW 3 "/lib/" 0 [] [] []).2.1 =
        [Entry.mk 0 "folder" "sub" "/lib/",
         Entry.mk 1 "file" "a.md" "/lib/sub"]
    ∧ _listSubFolder fsW 3 "/lib" 0 [] [] [] = ([], [], []) := by
  refine ⟨?_, ?_, ?_, rfl, rfl⟩
  · intro p n
    simp [filePathOf]
  · intro p n d hd
    simp [filePathOf, hd]
  · intro path h
    simp only [libraryEndTest, Bool.or_eq_true] at h
    simp only [Bool.or_eq_true]
    rcases h with h' | h'
    · left
      unfold strEndsWith at h' ⊢
      have e1 : ("library/" : String).data.reverse
          = '/' :: ("library" : String).data.reverse := by decide
      have e2 : ("/" : String).data.reverse = ['/'] := by decide
      rw [e1] at h'
      rw [e2]
      exact startsList_head _ _ _ h'
    · right
      unfold strEndsWith at h' ⊢
      have e1 : ("library\\" : String).data.reverse
          = '\\' :: ("library" : String).data.reverse := by decide
      have e2 : ("\\" : String).data.reverse = ['\\'] := by decide
      rw [e1] at h'
      rw [e2]
      exact startsList_head _ _ _ h'

/-- Witness for C10: the separator is inserted at depth 1, and the accepted
library path /proj/library/ indeed ends with a separator. -/
theorem claimC10_witness :
    filePathOf "/lib/sub" 1 "a.md" = "/lib/sub" ++ "/" ++ "a.md"
    ∧ (strEndsWith "/proj/library/" "/" || strEndsWith "/proj/library/" "\\")
        = true :=
  ⟨claimC10.2.1 "/lib/sub" "a.md" 1 (by decide),
   claimC10.2.2.1 "/proj/library/" (by rfl)⟩
